import Mathlib

/-!
Shallow embedding of the woreda_naming_standardizer repository.

Source files embedded:
* `src/standardizer.py` — `match_and_merge_two_datasets`
* `src/app.py`          — `map_columns` (column resolver) and its helper
  `process.extractOne(..., scorer=fuzz.ratio)`

Tables are modelled as an ordered column-name list plus an ordered list of
rows; a row is an association list from column name to cell value (mirroring
pandas rows/`to_dict()` with a default `RangeIndex`, so `iterrows` indices and
`iloc` positions coincide).  The rapidfuzz scoring functions `fuzz.ratio` and
`fuzz.token_set_ratio` (no `processor`, hence no case folding) are embedded
exactly, with scores as exact rationals (`mkRat`) in place of IEEE doubles:
every score produced here is the exact real value the float computation
approximates.
-/

namespace WoredaStd

/-- A pandas cell value: text, integer, or missing (NaN). -/
inductive Val where
  | str (s : String)
  | int (n : Int)
  | null
deriving DecidableEq, Repr

/-- Python `str(...)` on a cell value (pandas renders NaN as "nan"). -/
def pyStr : Val → String
  | .str s => s
  | .int n => toString n
  | .null  => "nan"

/-- A dataframe row, as `Series.to_dict()`: ordered column-name/value pairs. -/
abbrev Row := List (String × Val)

/-- First value stored under key `k`, like `row[k]` on a dict. -/
def lookupRow : Row → String → Option Val
  | [], _ => none
  | (k', v) :: r, k => if k' = k then some v else lookupRow r k

/-- Python dict assignment `row[k] = v`: replace the existing entry in place,
or append a new entry at the end. -/
def setVal : Row → String → Val → Row
  | [], k, v => [(k, v)]
  | (k', v') :: r, k, v => if k' = k then (k, v) :: r else (k', v') :: setVal r k v

/-- A dataframe: ordered column names and ordered rows. -/
structure Table where
  cols : List String
  rows : List Row
deriving DecidableEq, Repr

def emptyTable : Table := ⟨[], []⟩

/-! ### rapidfuzz `fuzz.ratio` (Indel-based similarity)

`fuzz.ratio(a, b) = 100 * (1 - indel_distance(a, b) / (len(a) + len(b)))`,
where the Indel distance is `len(a) + len(b) - 2 * lcs(a, b)`.
`lcsLen` is the longest-common-subsequence length computed by the usual
dynamic-programming row recurrence (so concrete scores evaluate quickly). -/

/-- One DP row step for the LCS table: given the previous row (tail) and the
value to the left in the current row, produce the rest of the current row. -/
def lcsRowAux (a : Char) : List Char → List Nat → Nat → List Nat
  | [], _, _ => []
  | _ :: _, [], _ => []
  | b :: bs, pj :: rest, left =>
    let c := if a = b then pj + 1 else max (rest.headD 0) left
    c :: lcsRowAux a bs rest c

/-- Length of the longest common subsequence of two character lists. -/
def lcsLen (s t : List Char) : Nat :=
  (s.foldl (fun prev a => 0 :: lcsRowAux a t prev 0) (List.replicate (t.length + 1) 0)).getLastD 0

/-- Indel (insert/delete-only edit) distance between two strings. -/
def indelDist (a b : String) : Nat :=
  a.length + b.length - 2 * lcsLen a.data b.data

/-- rapidfuzz's normalized-distance-to-score conversion:
`100 - 100 * dist / lensum`, with the empty case scored 100. -/
def normDist (dist lensum : Nat) : ℚ :=
  if lensum = 0 then 100 else mkRat (100 * ((lensum : ℤ) - dist)) lensum

/-- `fuzz.ratio` (rapidfuzz, no processor: case-sensitive). -/
def fuzzRatio (a b : String) : ℚ :=
  normDist (indelDist a b) (a.length + b.length)

/-! ### rapidfuzz `fuzz.token_set_ratio` -/

/-- Tokenizer loop for Python `s.split()`: `acc` holds the reversed chars of
the token being read; whitespace closes a token, empties are dropped. -/
def pySplitGo : List Char → List Char → List String
  | [], acc => if acc = [] then [] else [⟨acc.reverse⟩]
  | c :: cs, acc =>
    if c.isWhitespace then
      if acc = [] then pySplitGo cs [] else (⟨acc.reverse⟩ : String) :: pySplitGo cs []
    else pySplitGo cs (c :: acc)

/-- Python `s.split()`: whitespace-delimited tokens, empties dropped. -/
def pySplit (s : String) : List String :=
  pySplitGo s.data []

/-- Code-point lexicographic comparison (Python `<` on strings). -/
def strLtB : List Char → List Char → Bool
  | [], [] => false
  | [], _ :: _ => true
  | _ :: _, [] => false
  | a :: as, b :: bs => if a < b then true else if b < a then false else strLtB as bs

/-- Insert into an ascending list (strictly smaller elements stay in front). -/
def insertSorted (x : String) : List String → List String
  | [] => [x]
  | y :: ys => if strLtB y.data x.data then y :: insertSorted x ys else x :: y :: ys

/-- Python `sorted(...)` on strings.  The lists sorted here are deduplicated
token lists, so ascending insertion sort produces exactly Python's result. -/
def sortStrs (l : List String) : List String := l.foldr insertSorted []

/-- `fuzz.token_set_ratio` (rapidfuzz, no processor).  Token sets are the
deduplicated whitespace tokens of each string; the score is the maximum of
the Indel similarity between `sect ++ diff_ab` and `sect ++ diff_ba` and the
two similarities of `sect` against each of those, with a 100 shortcut when
one token set contains the other (and a nonempty intersection exists). -/
def tokenSetRatio (s1 s2 : String) : ℚ :=
  let tokensA := (pySplit s1).eraseDups
  let tokensB := (pySplit s2).eraseDups
  if tokensA = [] ∨ tokensB = [] then 0
  else
    let intersect := tokensA.filter (· ∈ tokensB)
    let diffAB := tokensA.filter (· ∉ tokensB)
    let diffBA := tokensB.filter (· ∉ tokensA)
    if intersect ≠ [] ∧ (diffAB = [] ∨ diffBA = []) then 100
    else
      let diffABJoined := String.intercalate " " (sortStrs diffAB)
      let diffBAJoined := String.intercalate " " (sortStrs diffBA)
      let abLen := diffABJoined.length
      let baLen := diffBAJoined.length
      let sectLen := (String.intercalate " " intersect).length
      let boolSect := if sectLen = 0 then 0 else 1
      let sectAbLen := sectLen + boolSect + abLen
      let sectBaLen := sectLen + boolSect + baLen
      let result := normDist (indelDist diffABJoined diffBAJoined) (sectAbLen + sectBaLen)
      let sectAbRatio := normDist (boolSect + abLen) (sectLen + sectAbLen)
      let sectBaRatio := normDist (boolSect + baLen) (sectLen + sectBaLen)
      max result (max sectAbRatio sectBaRatio)

/-! ### `match_and_merge_two_datasets` (src/standardizer.py) -/

/-- `str(row[k])` with a dict read; total via a default for the unreachable
missing-key case (the caller guarantees the key columns exist). -/
def getS (r : Row) (k : String) : String :=
  match lookupRow r k with
  | some v => pyStr v
  | none => ""

/-- Python `str.strip()`: drop leading and trailing whitespace. -/
def pyStrip (s : String) : String :=
  ⟨((s.data.dropWhile Char.isWhitespace).reverse.dropWhile Char.isWhitespace).reverse⟩

/-- Python `str.lower()` (ASCII; the embedded data is ASCII). -/
def pyLower (s : String) : String :=
  ⟨s.data.map Char.toLower⟩

/-- Column-value normalization applied during Step 1:
`.astype(str).str.strip().str.lower()`. -/
def normVal (v : Val) : Val :=
  .str (pyLower (pyStrip (pyStr v)))

/-- `df.rename(columns={old: new}, inplace=True)`: rename the column and the
corresponding key of every row. -/
def renameCol (t : Table) (old new : String) : Table :=
  ⟨t.cols.map (fun c => if c = old then new else c),
   t.rows.map (fun r => r.map (fun p => if p.1 = old then (new, p.2) else p))⟩

/-- `df[c] = df[c].astype(str).str.strip().str.lower()`. -/
def setColNorm (t : Table) (c : String) : Table :=
  ⟨if c ∈ t.cols then t.cols else t.cols ++ [c],
   t.rows.map (fun r => setVal r c (normVal ((lookupRow r c).getD .null)))⟩

/-- One iteration of the Step-1 loop over a column mapping: the body runs only
when the mapped actual column name differs from the required name. -/
def normStep (t : Table) (p : String × String) : Table :=
  if p.2 ≠ p.1 then setColNorm (renameCol t p.2 p.1) p.1 else t

/-- Step 1 of `match_and_merge_two_datasets` on one table (the working copy). -/
def normalizeTable (t : Table) (m : List (String × String)) : Table :=
  m.foldl normStep t

/-- The three similarity scores of the matching loop. -/
def regionScore (r1 r2 : Row) : ℚ := fuzzRatio (getS r1 "region") (getS r2 "region")

def zoneScore (r1 r2 : Row) : ℚ := fuzzRatio (getS r1 "zone") (getS r2 "zone")

def woredaScore (r1 r2 : Row) : ℚ := tokenSetRatio (getS r1 "woreda") (getS r2 "woreda")

/-- The acceptance test of the matching loop:
`region_score >= region_threshold and zone_score >= zone_threshold and
woreda_score >= woreda_threshold`. -/
def acceptB (r1 r2 : Row) (tR tZ tW : ℚ) : Bool :=
  decide (tR ≤ regionScore r1 r2) && decide (tZ ≤ zoneScore r1 r2)
    && decide (tW ≤ woredaScore r1 r2)

/-- The inner loop over `df2_copy.iterrows()`: skip claimed rows, return the
index of the first remaining row passing `acceptB` (the `break`). -/
def findMatch (row1 : Row) : List (Nat × Row) → List Nat → ℚ → ℚ → ℚ → Option Nat
  | [], _, _, _, _ => none
  | (i2, row2) :: rest, claimed, tR, tZ, tW =>
    if i2 ∈ claimed then findMatch row1 rest claimed tR tZ tW
    else if acceptB row1 row2 tR tZ tW then some i2
    else findMatch row1 rest claimed tR tZ tW

/-- The outer loop over `df1_copy.iterrows()`.  Returns the matched index
pairs (in discovery order), the unmatched df1 indices (in order), and the
final claimed-indices collection (`matched_indices_df2`; a Python `set`, used
only through membership, modelled as a list). -/
def matchLoop (normB : List (Nat × Row)) (tR tZ tW : ℚ) :
    List (Nat × Row) → List Nat → List (Nat × Nat) × List Nat × List Nat
  | [], claimed => ([], [], claimed)
  | (i1, row1) :: rest, claimed =>
    match findMatch row1 normB claimed tR tZ tW with
    | some i2 =>
      let r := matchLoop normB tR tZ tW rest (i2 :: claimed)
      ((i1, i2) :: r.1, r.2.1, r.2.2)
    | none =>
      let r := matchLoop normB tR tZ tW rest claimed
      (r.1, i1 :: r.2.1, r.2.2)

/-- The matching phase of `match_and_merge_two_datasets`: both working copies
are iterated positionally (`iterrows` on a RangeIndex). -/
def matchResult (df1 df2 : Table) (m1 m2 : List (String × String)) (tR tZ tW : ℚ) :
    List (Nat × Nat) × List Nat × List Nat :=
  matchLoop (normalizeTable df2 m2).rows.enum tR tZ tW (normalizeTable df1 m1).rows.enum []

/-- `df2_non_key_cols`: the original df2 columns not in `col_mapping2.values()`. -/
def nonKeyCols2 (df2 : Table) (m2 : List (String × String)) : List String :=
  df2.cols.filter (fun c => c ∉ m2.map Prod.snd)

/-- Result-row assembly for one matched pair:
`combined_row = df1.iloc[index1].to_dict()` followed by
`combined_row[col] = df2.iloc[index2][col]` for each non-key df2 column. -/
def combineRow (rowA rowB : Row) (nonKey2 : List String) : Row :=
  nonKey2.foldl (fun r c => setVal r c ((lookupRow rowB c).getD .null)) rowA

/-- `match_and_merge_two_datasets(df1, df2, col_mapping1, col_mapping2,
region_threshold, zone_threshold, woreda_threshold)`.  Returns the merged
rows, the unmatched df1 rows, and the unmatched df2 rows (all built from the
*original* tables, as in the source; `key_cols` in the source is unused). -/
def match_and_merge_two_datasets (df1 df2 : Table) (m1 m2 : List (String × String))
    (tR tZ tW : ℚ) : List Row × List Row × List Row :=
  let R := matchResult df1 df2 m1 m2 tR tZ tW
  let merged := R.1.map (fun p =>
    combineRow (df1.rows.getD p.1 []) (df2.rows.getD p.2 []) (nonKeyCols2 df2 m2))
  let unmatched1 := R.2.1.map (fun i => df1.rows.getD i [])
  let unmatched2 := ((List.range df2.rows.length).filter (fun i => i ∉ R.2.2)).map
    (fun i => df2.rows.getD i [])
  (merged, unmatched1, unmatched2)

/-! ### `map_columns` (src/app.py) and `process.extractOne` -/

/-- `col.strip().lower()` applied to candidate column names. -/
def normalizeColName (c : String) : String := pyLower (pyStrip c)

/-- Accumulator loop of `process.extractOne(query, choices, scorer=fuzz.ratio)`
with no score cutoff: keep the first choice attaining the maximum score
(later choices replace the best only on a strictly greater score). -/
def extractOneAux (q : String) : List String → Nat → Option (String × ℚ × Nat) →
    Option (String × ℚ × Nat)
  | [], _, best => best
  | c :: rest, i, best =>
    let s := fuzzRatio q c
    match best with
    | none => extractOneAux q rest (i + 1) (some (c, s, i))
    | some (bc, bs, bi) =>
      if bs < s then extractOneAux q rest (i + 1) (some (c, s, i))
      else extractOneAux q rest (i + 1) (some (bc, bs, bi))

/-- `process.extractOne(query, choices, scorer=fuzz.ratio)`: the
`(choice, score, index)` triple of the best match, `none` iff no choices. -/
def extractOne (q : String) (choices : List String) : Option (String × ℚ × Nat) :=
  extractOneAux q choices 0 none

/-- One iteration of the `for req_col in required_cols` loop of `map_columns`:
`some matched_col` when `best_match and best_match[1] >= 85`, else `none`
(the key is then reported missing).  `matched_col` is
`df.columns[normalized_cols.index(best_match[0])]`. -/
def resolveKey (cols : List String) (req : String) : Option String :=
  match extractOne req (cols.map normalizeColName) with
  | some (c, s, _) =>
    if 85 ≤ s then some (cols.getD ((cols.map normalizeColName).indexOf c) "") else none
  | none => none

/-- The `map_columns` loop with its two accumulators (`col_mapping`,
`missing_cols`). -/
def mapColumnsAux (cols : List String) :
    List String → List (String × String) × List String → List (String × String) × List String
  | [], acc => acc
  | req :: rest, (m, miss) =>
    match resolveKey cols req with
    | some a => mapColumnsAux cols rest (m ++ [(req, a)], miss)
    | none => mapColumnsAux cols rest (m, miss ++ [req])

/-- `map_columns(df, required_cols)` from src/app.py. -/
def mapColumns (cols : List String) (required : List String) :
    List (String × String) × List String :=
  mapColumnsAux cols required ([], [])

/-! ### Heap-instrumented version of `match_and_merge_two_datasets`

To state the frame property (the input dataframes are never mutated), the
function body is re-traced over an explicit object store: the two argument
dataframes live at store indices 0 and 1, `df1.copy()`/`df2.copy()` allocate
indices 2 and 3, and every in-place statement (`rename(..., inplace=True)`,
column assignment) writes through its store index.  The final store is
returned alongside the result. -/

/-- Read a dataframe object from the store. -/
def hGet (h : List Table) (i : Nat) : Table := h.getD i emptyTable

/-- The Step-1 normalization loop writing through store index `idx`. -/
def normalizePhaseH (idx : Nat) (h : List Table) (m : List (String × String)) : List Table :=
  m.foldl (fun h' p => h'.set idx (normStep (hGet h' idx) p)) h

/-- `match_and_merge_two_datasets`, instrumented with the object store.
Mirrors the source statement by statement: only indices 2 and 3 (the copies)
are ever written. -/
def matchAndMergeH (df1 df2 : Table) (m1 m2 : List (String × String))
    (tR tZ tW : ℚ) : (List Row × List Row × List Row) × List Table :=
  let h0 : List Table := [df1, df2]
  let h1 := h0 ++ [hGet h0 0]
  let h2 := h1 ++ [hGet h1 1]
  let h3 := normalizePhaseH 2 h2 m1
  let h4 := normalizePhaseH 3 h3 m2
  let df1c := hGet h4 2
  let df2c := hGet h4 3
  let df1o := hGet h4 0
  let df2o := hGet h4 1
  let R := matchLoop df2c.rows.enum tR tZ tW df1c.rows.enum []
  let merged := R.1.map (fun p =>
    combineRow (df1o.rows.getD p.1 []) (df2o.rows.getD p.2 []) (nonKeyCols2 df2o m2))
  let unmatched1 := R.2.1.map (fun i => df1o.rows.getD i [])
  let unmatched2 := ((List.range df2o.rows.length).filter (fun i => i ∉ R.2.2)).map
    (fun i => df2o.rows.getD i [])
  ((merged, unmatched1, unmatched2), h4)

/-! ### Concrete tables for the specification's end-to-end scenario -/

/-- Table A of the end-to-end scenario:
`[{region:"Addis Ababa", zone:"Zone1", woreda:"W1", val:10}]`. -/
def scenarioA : Table :=
  ⟨["region", "zone", "woreda", "val"],
   [[("region", .str "Addis Ababa"), ("zone", .str "Zone1"),
     ("woreda", .str "W1"), ("val", .int 10)]]⟩

/-- Table B of the end-to-end scenario:
`[{region:"addis ababa", zone:"zone 1", woreda:"w1 ", note:"ok"}]`. -/
def scenarioB : Table :=
  ⟨["region", "zone", "woreda", "note"],
   [[("region", .str "addis ababa"), ("zone", .str "zone 1"),
     ("woreda", .str "w1 "), ("note", .str "ok")]]⟩

/-- The identity column mapping produced by the resolver when the columns are
literally named `region`/`zone`/`woreda`. -/
def identityMapping : List (String × String) :=
  [("region", "region"), ("zone", "zone"), ("woreda", "woreda")]

end WoredaStd

namespace WoredaStd

/-- **C1** (code_bug): on the spec's end-to-end scenario with identity column
mappings and thresholds (80,80,80), the code returns an *empty* merged table
and both rows unmatched — not the merged row the claim states.  Because each
mapped actual column name equals the canonical name, Step 1's
`if actual_col != req_col` guard skips the strip/lower-case value rewrite, so
the raw values are compared: `fuzz.ratio("Zone1", "zone 1") = 800/11 < 80`
(and `token_set_ratio("W1", "w1 ") = 50 < 80`), hence no match. -/
theorem c1_end_to_end_scenario_fails_on_code :
    match_and_merge_two_datasets scenarioA scenarioB identityMapping identityMapping 80 80 80 =
      ([], [scenarioA.rows.getD 0 []], [scenarioB.rows.getD 0 []])
    ∧ zoneScore (scenarioA.rows.getD 0 []) (scenarioB.rows.getD 0 []) = mkRat 800 11
    ∧ woredaScore (scenarioA.rows.getD 0 []) (scenarioB.rows.getD 0 []) = 50
    ∧ normalizeTable scenarioA identityMapping = scenarioA
    ∧ normalizeTable scenarioB identityMapping = scenarioB := by
  refine ⟨by decide, by decide, by decide, by decide, by decide⟩

/-- A table whose key columns are already canonically named but whose values
carry whitespace and upper-case letters. -/
def c2Table : Table :=
  ⟨["region", "zone", "woreda"],
   [[("region", .str " Oromia "), ("zone", .str " Zone One "), ("woreda", .str " W One ")]]⟩

/-- **C2** (counterexample): with an identity column mapping, Step 1 leaves
the working copy identical to the input — the region value keeps its
whitespace and upper-case letter, though the claim requires it to be stripped
and lower-cased. -/
theorem c2_counterexample_identity_mapping_not_normalized :
    normalizeTable c2Table identityMapping = c2Table
    ∧ getS ((normalizeTable c2Table identityMapping).rows.getD 0 []) "region" = " Oromia "
    ∧ pyLower (pyStrip " Oromia ") ≠ " Oromia " := by
  refine ⟨by decide, by decide, by decide⟩

/-- **C2** (amended): Step 1 normalizes a key column *only when* its mapped
actual name differs from the canonical name.  When every mapped name equals
its canonical name the working copy equals the input unchanged; when the
mapped names differ (here the capitalized schema), each key column is renamed
and its value rewritten to `lower(strip(str(value)))`, for arbitrary cell
values. -/
theorem c2_amended_normalize_only_when_renamed :
    (∀ (t : Table) (m : List (String × String)),
      (∀ p ∈ m, p.2 = p.1) → normalizeTable t m = t)
    ∧ (∀ vr vz vw extra : Val,
        normalizeTable
          ⟨["Region", "Zone", "Woreda", "val"],
           [[("Region", vr), ("Zone", vz), ("Woreda", vw), ("val", extra)]]⟩
          [("region", "Region"), ("zone", "Zone"), ("woreda", "Woreda")] =
        ⟨["region", "zone", "woreda", "val"],
         [[("region", .str (pyLower (pyStrip (pyStr vr)))),
           ("zone", .str (pyLower (pyStrip (pyStr vz)))),
           ("woreda", .str (pyLower (pyStrip (pyStr vw)))),
           ("val", extra)]]⟩) := by
  constructor
  · intro t m
    induction m generalizing t with
    | nil => intro _; rfl
    | cons p m ih =>
      intro h
      have hp : p.2 = p.1 := h p (List.mem_cons_self p m)
      have hstep : normStep t p = t := by simp [normStep, hp]
      show List.foldl normStep (normStep t p) m = t
      rw [hstep]
      exact ih t (fun q hq => h q (List.mem_cons_of_mem p hq))
  · intro vr vz vw extra
    rfl

/-- Witness for the amended C2: a concrete identity-mapped table passes
through Step 1 untouched. -/
theorem c2_amended_witness :
    normalizeTable ⟨["region"], [[("region", Val.str " AbC ")]]⟩ [("region", "region")] =
      ⟨["region"], [[("region", Val.str " AbC ")]]⟩ :=
  c2_amended_normalize_only_when_renamed.1 _ _ (by decide)

/-- **C3**: the matcher accepts a candidate pair exactly when all three scores
meet their thresholds (logical AND): scoring exactly at threshold on all
three fields passes; falling below threshold on any single field fails even
when the other two thresholds are met exactly; and an unclaimed single
candidate is returned by the scan iff the acceptance test passes. -/
theorem c3_accept_iff_all_three_thresholds (r1 r2 : Row) (tR tZ tW : ℚ) (i2 : Nat)
    (claimed : List Nat) :
    (acceptB r1 r2 tR tZ tW = true ↔
      (tR ≤ regionScore r1 r2 ∧ tZ ≤ zoneScore r1 r2 ∧ tW ≤ woredaScore r1 r2))
    ∧ acceptB r1 r2 (regionScore r1 r2) (zoneScore r1 r2) (woredaScore r1 r2) = true
    ∧ (woredaScore r1 r2 < tW →
        acceptB r1 r2 (regionScore r1 r2) (zoneScore r1 r2) tW = false)
    ∧ (zoneScore r1 r2 < tZ →
        acceptB r1 r2 (regionScore r1 r2) tZ (woredaScore r1 r2) = false)
    ∧ (regionScore r1 r2 < tR →
        acceptB r1 r2 tR (zoneScore r1 r2) (woredaScore r1 r2) = false)
    ∧ (i2 ∉ claimed →
        (findMatch r1 [(i2, r2)] claimed tR tZ tW = some i2 ↔ acceptB r1 r2 tR tZ tW = true)) := by
  refine ⟨by simp [acceptB, and_assoc], by simp [acceptB], ?_, ?_, ?_, ?_⟩
  · intro h; simp [acceptB, not_le.mpr h]
  · intro h; simp [acceptB, not_le.mpr h]
  · intro h; simp [acceptB, not_le.mpr h]
  · intro h
    simp only [findMatch, if_neg h]
    constructor
    · intro hf
      by_contra hacc
      rw [Bool.not_eq_true] at hacc
      simp [hacc] at hf
    · intro hacc
      simp [hacc]

/-- Two rows with identical key strings — all three scores are 100. -/
def c3RowA : Row := [("region", .str "x"), ("zone", .str "y"), ("woreda", .str "z")]

def c3RowB : Row := [("region", .str "x"), ("zone", .str "y"), ("woreda", .str "z"), ("v", .int 1)]

/-- Witness for C3 at a concrete pair: exactly-at-threshold (100,100,100)
matches, raising only the woreda threshold to 101 fails, and the singleton
scan returns the candidate. -/
theorem c3_witness :
    acceptB c3RowA c3RowB 100 100 100 = true
    ∧ acceptB c3RowA c3RowB 100 100 101 = false
    ∧ findMatch c3RowA [(5, c3RowB)] [] 100 100 100 = some 5 := by
  have h100 := c3_accept_iff_all_three_thresholds c3RowA c3RowB 100 100 100 5 []
  have h101 := c3_accept_iff_all_three_thresholds c3RowA c3RowB 100 100 101 5 []
  refine ⟨?_, ?_, ?_⟩
  · exact h100.1.mpr ⟨by decide, by decide, by decide⟩
  · have := h101.2.2.1 (by decide)
    have hr : regionScore c3RowA c3RowB = 100 := by decide
    have hz : zoneScore c3RowA c3RowB = 100 := by decide
    rwa [hr, hz] at this
  · exact (h100.2.2.2.2.2 (by decide)).mpr (h100.1.mpr ⟨by decide, by decide, by decide⟩)

/-- **C4** (first-fit): if every B row scanned before position of `(i2, row2)`
is either already claimed or fails the acceptance test, and `(i2, row2)` is
unclaimed and passes, then the scan returns `i2` — whatever comes after it,
including later candidates with strictly higher scores. -/
theorem c4_first_fit (row1 : Row) (pre post : List (Nat × Row)) (i2 : Nat) (row2 : Row)
    (claimed : List Nat) (tR tZ tW : ℚ)
    (hpre : ∀ p ∈ pre, p.1 ∈ claimed ∨ acceptB row1 p.2 tR tZ tW = false)
    (hun : i2 ∉ claimed) (hacc : acceptB row1 row2 tR tZ tW = true) :
    findMatch row1 (pre ++ (i2, row2) :: post) claimed tR tZ tW = some i2 := by
  induction pre with
  | nil => simp [findMatch, hun, hacc]
  | cons p pre ih =>
    obtain ⟨j, rj⟩ := p
    have htail : ∀ q ∈ pre, q.1 ∈ claimed ∨ acceptB row1 q.2 tR tZ tW = false :=
      fun q hq => hpre q (List.mem_cons_of_mem _ hq)
    rcases hpre (j, rj) (List.mem_cons_self _ _) with h | h
    · simpa [findMatch, h] using ih htail
    · by_cases hc : j ∈ claimed
      · simpa [findMatch, hc] using ih htail
      · simpa [findMatch, hc, h] using ih htail

/-- A-row and B-rows for the first-fit witness: `c4B90` scores 90 on region
against `c4A` and `c4B100` scores 100; zone and woreda agree everywhere. -/
def c4A : Row := [("region", .str "xxxxxxxxxx"), ("zone", .str "z"), ("woreda", .str "w")]

def c4Bbad : Row := [("region", .str "q"), ("zone", .str "z"), ("woreda", .str "w")]

def c4B90 : Row := [("region", .str "xxxxxxxxxy"), ("zone", .str "z"), ("woreda", .str "w")]

def c4B100 : Row := [("region", .str "xxxxxxxxxx"), ("zone", .str "z"), ("woreda", .str "w")]

/-- Witness for C4: at thresholds (80,80,80) the scan binds to the 90-scoring
row at index 1, even though the row at index 2 scores 100 and also
qualifies. -/
theorem c4_witness :
    findMatch c4A [(0, c4Bbad), (1, c4B90), (2, c4B100)] [] 80 80 80 = some 1
    ∧ acceptB c4A c4B100 80 80 80 = true
    ∧ regionScore c4A c4B90 < regionScore c4A c4B100 := by
  refine ⟨c4_first_fit c4A [(0, c4Bbad)] [(2, c4B100)] 1 c4B90 [] 80 80 80
    (by decide) (by decide) (by decide), by decide, by decide⟩

/-! ### Dict-update lemmas for result-row assembly -/

lemma lookupRow_setVal_self (r : Row) (k : String) (v : Val) :
    lookupRow (setVal r k v) k = some v := by
  induction r with
  | nil => simp [setVal, lookupRow]
  | cons p r ih =>
    by_cases h : p.1 = k
    · simp [setVal, h, lookupRow]
    · simpa [setVal, h, lookupRow] using ih

lemma lookupRow_setVal_other (r : Row) (k k' : String) (v : Val) (h : k' ≠ k) :
    lookupRow (setVal r k v) k' = lookupRow r k' := by
  induction r with
  | nil => simp [setVal, lookupRow, Ne.symm h]
  | cons p r ih =>
    by_cases hp : p.1 = k
    · simp [setVal, hp, lookupRow, Ne.symm h]
    · by_cases hp' : p.1 = k'
      · simp [setVal, hp, lookupRow, hp', h]
      · simp [setVal, hp, lookupRow, hp', ih]

/-- A column not among the appended df2 columns is untouched by the
assembly fold. -/
lemma lookup_combineRow_not_mem (rowA rowB : Row) (l : List String) (c : String)
    (h : c ∉ l) : lookupRow (combineRow rowA rowB l) c = lookupRow rowA c := by
  induction l generalizing rowA with
  | nil => rfl
  | cons d l ih =>
    have hd : c ≠ d := fun hc => h (hc ▸ List.mem_cons_self d l)
    have hl : c ∉ l := fun hc => h (List.mem_cons_of_mem d hc)
    show lookupRow (combineRow (setVal rowA d _) rowB l) c = _
    rw [ih _ hl, lookupRow_setVal_other _ _ _ _ hd]

/-- An appended df2 column ends up holding df2's value in the combined row. -/
lemma lookup_combineRow_mem (rowA rowB : Row) (l : List String) (c : String)
    (h : c ∈ l) :
    lookupRow (combineRow rowA rowB l) c = some ((lookupRow rowB c).getD .null) := by
  induction l generalizing rowA with
  | nil => cases h
  | cons d l ih =>
    by_cases hl : c ∈ l
    · exact ih _ hl
    · have hd : c = d := by
        rcases List.mem_cons.mp h with h' | h'
        · exact h'
        · exact absurd h' hl
      subst hd
      show lookupRow (combineRow (setVal rowA c _) rowB l) c = _
      rw [lookup_combineRow_not_mem _ _ _ _ hl, lookupRow_setVal_self]

/-- Tables for the merged-row column-provenance scenario: both carry a
non-key column `note`, with different values. -/
def c6A : Table :=
  ⟨["region", "zone", "woreda", "note"],
   [[("region", .str "x"), ("zone", .str "y"), ("woreda", .str "z"), ("note", .str "a")]]⟩

def c6B : Table :=
  ⟨["region", "zone", "woreda", "note"],
   [[("region", .str "x"), ("zone", .str "y"), ("woreda", .str "z"), ("note", .str "b")]]⟩

/-- **C6** (counterexample): with a matched pair where B carries a non-key
column `note` whose name also occurs in A, the merged row holds B's value
`"b"`, not A's original value `"a"` — so the merged row does *not* contain
all original columns of the A row with their original values. -/
theorem c6_counterexample_b_column_replaces_a_value :
    match_and_merge_two_datasets c6A c6B identityMapping identityMapping 80 80 80 =
      ([[("region", .str "x"), ("zone", .str "y"), ("woreda", .str "z"), ("note", .str "b")]],
       [], [])
    ∧ lookupRow (c6A.rows.getD 0 []) "note" = some (.str "a")
    ∧ Val.str "b" ≠ Val.str "a" := by
  refine ⟨by decide, by decide, by decide⟩

/-- **C6** (amended): each matched pair contributes one merged row; a column
outside B's appended non-key columns holds the A row's original value (in
particular B's mapped key columns, which are never among the appended
columns, contribute nothing), and each of B's non-key columns holds B's
value — overwriting a same-named A column if one exists. -/
theorem c6_amended_merged_row_columns (df1 df2 : Table) (m1 m2 : List (String × String))
    (tR tZ tW : ℚ) (p : Nat × Nat)
    (hp : p ∈ (matchResult df1 df2 m1 m2 tR tZ tW).1) :
    ∃ r ∈ (match_and_merge_two_datasets df1 df2 m1 m2 tR tZ tW).1,
      r = combineRow (df1.rows.getD p.1 []) (df2.rows.getD p.2 []) (nonKeyCols2 df2 m2)
      ∧ (∀ c, c ∉ nonKeyCols2 df2 m2 → lookupRow r c = lookupRow (df1.rows.getD p.1 []) c)
      ∧ (∀ c, c ∈ nonKeyCols2 df2 m2 →
          lookupRow r c = some ((lookupRow (df2.rows.getD p.2 []) c).getD .null))
      ∧ (∀ c, c ∈ m2.map Prod.snd → c ∉ nonKeyCols2 df2 m2) := by
  refine ⟨_, List.mem_map_of_mem _ hp, rfl, ?_, ?_, ?_⟩
  · intro c hc; exact lookup_combineRow_not_mem _ _ _ _ hc
  · intro c hc; exact lookup_combineRow_mem _ _ _ _ hc
  · intro c hc hmem
    rw [nonKeyCols2, List.mem_filter] at hmem
    have h2 := hmem.2
    simp only [decide_not, Bool.not_eq_true', decide_eq_false_iff_not] at h2
    exact h2 hc

/-- Witness for the amended C6 on the concrete `c6A`/`c6B` scenario. -/
theorem c6_amended_witness :
    ∃ r ∈ (match_and_merge_two_datasets c6A c6B identityMapping identityMapping 80 80 80).1,
      r = combineRow (c6A.rows.getD 0 []) (c6B.rows.getD 0 [])
            (nonKeyCols2 c6B identityMapping)
      ∧ (∀ c, c ∉ nonKeyCols2 c6B identityMapping →
          lookupRow r c = lookupRow (c6A.rows.getD 0 []) c)
      ∧ (∀ c, c ∈ nonKeyCols2 c6B identityMapping →
          lookupRow r c = some ((lookupRow (c6B.rows.getD 0 []) c).getD .null))
      ∧ (∀ c, c ∈ identityMapping.map Prod.snd → c ∉ nonKeyCols2 c6B identityMapping) :=
  c6_amended_merged_row_columns c6A c6B identityMapping identityMapping 80 80 80 (0, 0)
    (by decide)

/-- **C10**: for a matched pair, every non-key column of B — including one
whose name equals a column of A — ends up in the merged row with *B's* value
(the dict update silently overwrites the A value). -/
theorem c10_b_nonkey_overwrites_a (df1 df2 : Table) (m1 m2 : List (String × String))
    (tR tZ tW : ℚ) (p : Nat × Nat) (c : String)
    (hp : p ∈ (matchResult df1 df2 m1 m2 tR tZ tW).1)
    (hnk : c ∈ nonKeyCols2 df2 m2) (_hA : c ∈ df1.cols) :
    ∃ r ∈ (match_and_merge_two_datasets df1 df2 m1 m2 tR tZ tW).1,
      lookupRow r c = some ((lookupRow (df2.rows.getD p.2 []) c).getD .null) :=
  ⟨_, List.mem_map_of_mem _ hp, lookup_combineRow_mem _ _ _ _ hnk⟩

/-- Witness for C10: in the `c6A`/`c6B` run the merged row's `note` is B's
value, which differs from A's original value. -/
theorem c10_witness :
    (∃ r ∈ (match_and_merge_two_datasets c6A c6B identityMapping identityMapping 80 80 80).1,
      lookupRow r "note" = some ((lookupRow (c6B.rows.getD 0 []) "note").getD .null))
    ∧ (lookupRow (c6B.rows.getD 0 []) "note").getD .null ≠
        (lookupRow (c6A.rows.getD 0 []) "note").getD .null :=
  ⟨c10_b_nonkey_overwrites_a c6A c6B identityMapping identityMapping 80 80 80 (0, 0) "note"
    (by decide) (by decide) (by decide), by decide⟩

/-! ### Matching-loop invariants (for the partition claim) -/

/-- A successful inner scan returns an index drawn from the scanned list that
was not yet claimed. -/
lemma findMatch_some_spec (row1 : Row) (bs : List (Nat × Row)) (claimed : List Nat)
    (tR tZ tW : ℚ) (j : Nat)
    (h : findMatch row1 bs claimed tR tZ tW = some j) :
    j ∈ bs.map Prod.fst ∧ j ∉ claimed := by
  induction bs with
  | nil => simp [findMatch] at h
  | cons p rest ih =>
    obtain ⟨i2, row2⟩ := p
    by_cases hc : i2 ∈ claimed
    · rw [findMatch, if_pos hc] at h
      exact ⟨List.mem_cons_of_mem _ (ih h).1, (ih h).2⟩
    · rw [findMatch, if_neg hc] at h
      by_cases ha : acceptB row1 row2 tR tZ tW = true
      · rw [if_pos ha] at h
        injection h with h'
        subst h'
        exact ⟨by simp, hc⟩
      · rw [if_neg ha] at h
        exact ⟨List.mem_cons_of_mem _ (ih h).1, (ih h).2⟩

/-- The A indices of the matched pairs together with the unmatched A indices
are a permutation of the processed A indices. -/
lemma matchLoop_perm (normB : List (Nat × Row)) (tR tZ tW : ℚ) (as : List (Nat × Row)) :
    ∀ claimed, ((matchLoop normB tR tZ tW as claimed).1.map Prod.fst
      ++ (matchLoop normB tR tZ tW as claimed).2.1).Perm (as.map Prod.fst) := by
  induction as with
  | nil => intro claimed; simp [matchLoop]
  | cons a rest ih =>
    intro claimed
    obtain ⟨i1, row1⟩ := a
    simp only [matchLoop]
    cases hf : findMatch row1 normB claimed tR tZ tW with
    | some i2 =>
      simpa using (ih (i2 :: claimed)).cons i1
    | none =>
      simpa using List.perm_middle.trans ((ih claimed).cons i1)

/-- The final claimed collection is exactly the B indices of the matched
pairs (in reverse discovery order) on top of the initial one. -/
lemma matchLoop_claimed (normB : List (Nat × Row)) (tR tZ tW : ℚ) (as : List (Nat × Row)) :
    ∀ claimed, (matchLoop normB tR tZ tW as claimed).2.2 =
      ((matchLoop normB tR tZ tW as claimed).1.map Prod.snd).reverse ++ claimed := by
  induction as with
  | nil => intro claimed; simp [matchLoop]
  | cons a rest ih =>
    intro claimed
    obtain ⟨i1, row1⟩ := a
    simp only [matchLoop]
    cases hf : findMatch row1 normB claimed tR tZ tW with
    | some i2 =>
      simp only [List.map_cons, List.reverse_cons, List.append_assoc, List.singleton_append]
      exact ih (i2 :: claimed)
    | none =>
      exact ih claimed

/-- Every claimed B index comes from the scanned B list and was not claimed
initially. -/
lemma matchLoop_snd_spec (normB : List (Nat × Row)) (tR tZ tW : ℚ) (as : List (Nat × Row)) :
    ∀ claimed j, j ∈ (matchLoop normB tR tZ tW as claimed).1.map Prod.snd →
      j ∈ normB.map Prod.fst ∧ j ∉ claimed := by
  induction as with
  | nil => intro claimed j h; simp [matchLoop] at h
  | cons a rest ih =>
    intro claimed j h
    obtain ⟨i1, row1⟩ := a
    simp only [matchLoop] at h
    cases hf : findMatch row1 normB claimed tR tZ tW with
    | some i2 =>
      rw [hf] at h
      simp only [List.map_cons] at h
      rcases List.mem_cons.mp h with rfl | h'
      · exact findMatch_some_spec _ _ _ _ _ _ _ hf
      · have hrest := ih (i2 :: claimed) j h'
        exact ⟨hrest.1, fun hj => hrest.2 (List.mem_cons_of_mem _ hj)⟩
    | none =>
      rw [hf] at h
      exact ih claimed j h

/-- No B index is claimed twice. -/
lemma matchLoop_snd_nodup (normB : List (Nat × Row)) (tR tZ tW : ℚ) (as : List (Nat × Row)) :
    ∀ claimed, ((matchLoop normB tR tZ tW as claimed).1.map Prod.snd).Nodup := by
  induction as with
  | nil => intro claimed; simp [matchLoop]
  | cons a rest ih =>
    intro claimed
    obtain ⟨i1, row1⟩ := a
    simp only [matchLoop]
    cases hf : findMatch row1 normB claimed tR tZ tW with
    | some i2 =>
      simp only [List.map_cons, List.nodup_cons]
      refine ⟨fun hmem => ?_, ih (i2 :: claimed)⟩
      exact (matchLoop_snd_spec normB tR tZ tW rest (i2 :: claimed) i2 hmem).2
        (List.mem_cons_self _ _)
    | none =>
      exact ih claimed

/-- Step 1 does not change the number of rows. -/
lemma normStep_rows_length (t : Table) (p : String × String) :
    (normStep t p).rows.length = t.rows.length := by
  by_cases h : p.2 ≠ p.1 <;> simp [normStep, h, setColNorm, renameCol]

lemma normalizeTable_rows_length (t : Table) (m : List (String × String)) :
    (normalizeTable t m).rows.length = t.rows.length := by
  induction m generalizing t with
  | nil => rfl
  | cons p m ih =>
    show (List.foldl normStep (normStep t p) m).rows.length = t.rows.length
    exact (ih (normStep t p)).trans (normStep_rows_length t p)

/-- A Nodup list of indices below `n` is a permutation of the matching
filter of `range n`. -/
lemma filter_mem_perm (c : List Nat) (n : Nat) (hnd : c.Nodup)
    (hsub : ∀ j ∈ c, j < n) :
    ((List.range n).filter (fun i => decide (i ∈ c))).Perm c := by
  refine (List.perm_ext_iff_of_nodup (List.Nodup.filter _ (List.nodup_range n)) hnd).mpr ?_
  intro a
  simp only [List.mem_filter, List.mem_range, decide_eq_true_eq]
  exact ⟨fun h => h.2, fun h => ⟨hsub a h, h⟩⟩

/-- The in/out filters of a list partition its length. -/
lemma length_filter_mem_partition (l : List Nat) (c : List Nat) :
    (l.filter (fun i => decide (i ∈ c))).length
      + (l.filter (fun i => decide (i ∉ c))).length = l.length := by
  induction l with
  | nil => rfl
  | cons a l ih =>
    by_cases h : a ∈ c
    · have h1 : decide (a ∈ c) = true := by simp [h]
      have h2 : decide (a ∉ c) = false := by simp [h]
      simp only [List.filter_cons, h1, h2]
      simp only [if_true, Bool.false_eq_true, if_false, List.length_cons]
      omega
    · have h1 : decide (a ∈ c) = false := by simp [h]
      have h2 : decide (a ∉ c) = true := by simp [h]
      simp only [List.filter_cons, h1, h2]
      simp only [if_true, Bool.false_eq_true, if_false, List.length_cons]
      omega

/-- **C5**: the partition and injectivity invariants of one matching run.
Every A-row index below `|A|` lands in exactly one of the matched pairs and
the unmatched-A list (and those lists are duplicate-free); the B indices of
the matched pairs are duplicate-free and in range; the merged table has
exactly one row per matched pair; merged and unmatched-A rows together
account for every A row; the final claimed collection holds exactly the
matched B indices; and every B index below `|B|` is either claimed or kept
in the unmatched-B filter, never both, with the row counts adding up. -/
theorem c5_partition_and_injectivity (df1 df2 : Table) (m1 m2 : List (String × String))
    (tR tZ tW : ℚ) :
    (∀ i, i < df1.rows.length ↔
      (i ∈ (matchResult df1 df2 m1 m2 tR tZ tW).1.map Prod.fst
        ∨ i ∈ (matchResult df1 df2 m1 m2 tR tZ tW).2.1))
    ∧ (∀ i, ¬ (i ∈ (matchResult df1 df2 m1 m2 tR tZ tW).1.map Prod.fst
        ∧ i ∈ (matchResult df1 df2 m1 m2 tR tZ tW).2.1))
    ∧ ((matchResult df1 df2 m1 m2 tR tZ tW).1.map Prod.fst).Nodup
    ∧ ((matchResult df1 df2 m1 m2 tR tZ tW).1.map Prod.snd).Nodup
    ∧ (∀ j, j ∈ (matchResult df1 df2 m1 m2 tR tZ tW).1.map Prod.snd →
        j < df2.rows.length)
    ∧ (match_and_merge_two_datasets df1 df2 m1 m2 tR tZ tW).1.length
        = (matchResult df1 df2 m1 m2 tR tZ tW).1.length
    ∧ (match_and_merge_two_datasets df1 df2 m1 m2 tR tZ tW).1.length
        + (match_and_merge_two_datasets df1 df2 m1 m2 tR tZ tW).2.1.length
        = df1.rows.length
    ∧ (∀ j, j ∈ (matchResult df1 df2 m1 m2 tR tZ tW).2.2 ↔
        j ∈ (matchResult df1 df2 m1 m2 tR tZ tW).1.map Prod.snd)
    ∧ (∀ j, j < df2.rows.length →
        ((j ∈ (matchResult df1 df2 m1 m2 tR tZ tW).2.2)
          ↔ ¬ j ∈ (List.range df2.rows.length).filter
              (fun i => i ∉ (matchResult df1 df2 m1 m2 tR tZ tW).2.2)))
    ∧ (match_and_merge_two_datasets df1 df2 m1 m2 tR tZ tW).2.2.length
        + (matchResult df1 df2 m1 m2 tR tZ tW).1.length = df2.rows.length := by
  set nB := (normalizeTable df2 m2).rows.enum with hnB
  set asA := (normalizeTable df1 m1).rows.enum with hasA
  have hperm := matchLoop_perm nB tR tZ tW asA []
  have hclaimed := matchLoop_claimed nB tR tZ tW asA []
  have hsnd := matchLoop_snd_spec nB tR tZ tW asA []
  have hnodup := matchLoop_snd_nodup nB tR tZ tW asA []
  have hR : matchResult df1 df2 m1 m2 tR tZ tW = matchLoop nB tR tZ tW asA [] := rfl
  have hfstA : asA.map Prod.fst = List.range df1.rows.length := by
    rw [hasA, List.enum_map_fst, normalizeTable_rows_length]
  have hfstB : nB.map Prod.fst = List.range df2.rows.length := by
    rw [hnB, List.enum_map_fst, normalizeTable_rows_length]
  rw [hfstA] at hperm
  -- claimed membership ↔ matched B index
  have hcl : ∀ j, j ∈ (matchResult df1 df2 m1 m2 tR tZ tW).2.2 ↔
      j ∈ (matchResult df1 df2 m1 m2 tR tZ tW).1.map Prod.snd := by
    intro j
    rw [hR, hclaimed]
    simp
  have hsnd' : ∀ j, j ∈ (matchResult df1 df2 m1 m2 tR tZ tW).1.map Prod.snd →
      j < df2.rows.length := by
    intro j hj
    have := (hsnd j (hR ▸ hj)).1
    rw [hfstB] at this
    exact List.mem_range.mp this
  have hnodup' : ((matchResult df1 df2 m1 m2 tR tZ tW).1.map Prod.snd).Nodup := hR ▸ hnodup
  have happnd : ((matchResult df1 df2 m1 m2 tR tZ tW).1.map Prod.fst
      ++ (matchResult df1 df2 m1 m2 tR tZ tW).2.1).Nodup := by
    rw [hR]
    exact hperm.nodup_iff.mpr (List.nodup_range _)
  refine ⟨?_, ?_, ?_, hnodup', hsnd', ?_, ?_, hcl, ?_, ?_⟩
  · intro i
    rw [← List.mem_range (n := df1.rows.length), ← hperm.mem_iff, List.mem_append, hR]
  · intro i hi
    have hdis := (List.nodup_append.mp happnd).2.2
    exact hdis hi.1 hi.2
  · exact (List.nodup_append.mp happnd).1
  · simp [match_and_merge_two_datasets]
  · have hlen := hperm.length_eq
    rw [List.length_append, List.length_range, List.length_map] at hlen
    simpa [match_and_merge_two_datasets, hR] using hlen
  · intro j hj
    simp only [List.mem_filter, List.mem_range, decide_eq_true_eq, not_and, not_not]
    constructor
    · intro hcl2 _
      exact hcl2
    · intro h
      exact h hj
  · -- |unmatched B| + |pairs| = |B|
    have hclen : (matchResult df1 df2 m1 m2 tR tZ tW).2.2.length
        = (matchResult df1 df2 m1 m2 tR tZ tW).1.length := by
      rw [hR, hclaimed]
      simp
    have hp := filter_mem_perm ((matchResult df1 df2 m1 m2 tR tZ tW).2.2) df2.rows.length
      (by
        rw [hR, hclaimed]
        simpa using List.nodup_reverse.mpr (hR ▸ hnodup'))
      (fun j hj => hsnd' j ((hcl j).mp hj))
    have hpart := length_filter_mem_partition (List.range df2.rows.length)
      ((matchResult df1 df2 m1 m2 tR tZ tW).2.2)
    rw [List.length_range] at hpart
    have hflen := hp.length_eq
    have hout : (match_and_merge_two_datasets df1 df2 m1 m2 tR tZ tW).2.2.length
        = ((List.range df2.rows.length).filter
            (fun i => decide (i ∉ (matchResult df1 df2 m1 m2 tR tZ tW).2.2))).length := by
      simp [match_and_merge_two_datasets]
    rw [hout]
    omega

/-- Witness for C5 at the concrete end-to-end tables: merged and unmatched-A
row counts add up to the number of A rows. -/
theorem c5_witness :
    (match_and_merge_two_datasets scenarioA scenarioB identityMapping identityMapping
        80 80 80).1.length
      + (match_and_merge_two_datasets scenarioA scenarioB identityMapping identityMapping
          80 80 80).2.1.length
      = scenarioA.rows.length := by
  have h := c5_partition_and_injectivity scenarioA scenarioB identityMapping identityMapping
    80 80 80
  exact h.2.2.2.2.2.2.1

/-! ### Column-resolver invariants -/

/-- Invariant of `extractOneAux` after scanning the prefix `done`: the stored
best is a maximal-score choice from `done`, and the first one attaining that
score. -/
def BestInv (q : String) (done : List String) : Option (String × ℚ × Nat) → Prop
  | none => done = []
  | some (c, s, i) =>
    i < done.length ∧ done.getD i "" = c ∧ s = fuzzRatio q c
      ∧ (∀ k, k < done.length → fuzzRatio q (done.getD k "") ≤ s)
      ∧ (∀ k, k < i → fuzzRatio q (done.getD k "") < s)

lemma extractOneAux_inv (q : String) (cs : List String) :
    ∀ (done : List String) (best : Option (String × ℚ × Nat)),
      BestInv q done best →
      BestInv q (done ++ cs) (extractOneAux q cs done.length best) := by
  induction cs with
  | nil => intro done best h; simpa [extractOneAux] using h
  | cons c cs ih =>
    intro done best h
    have hlen : done.length + 1 = (done ++ [c]).length := by simp
    have hget : (done ++ [c]).getD done.length "" = c := by
      rw [List.getD_append_right _ _ _ _ (le_refl _)]
      simp
    have hassoc : (done ++ [c]) ++ cs = done ++ c :: cs := by simp
    cases best with
    | none =>
      have hdone : done = [] := h
      subst hdone
      show BestInv q ([] ++ c :: cs) (extractOneAux q (c :: cs) 0 none)
      have step : extractOneAux q (c :: cs) 0 none =
          extractOneAux q cs ([c].length) (some (c, fuzzRatio q c, 0)) := rfl
      rw [step]
      have hinv : BestInv q [c] (some (c, fuzzRatio q c, 0)) := by
        refine ⟨by simp, rfl, rfl, ?_, ?_⟩
        · intro k hk
          simp only [List.length_singleton] at hk
          have hk0 : k = 0 := by omega
          subst hk0
          simp
        · intro k hk
          omega
      simpa using ih [c] _ hinv
    | some b =>
      obtain ⟨bc, bs, bi⟩ := b
      obtain ⟨hi, hbc, hbs, hmax, hfirst⟩ := h
      by_cases hlt : bs < fuzzRatio q c
      · have step : extractOneAux q (c :: cs) done.length (some (bc, bs, bi)) =
            extractOneAux q cs (done.length + 1) (some (c, fuzzRatio q c, done.length)) := by
          simp [extractOneAux, hlt]
        rw [step, hlen]
        have hinv : BestInv q (done ++ [c]) (some (c, fuzzRatio q c, done.length)) := by
          refine ⟨by simp, hget, rfl, ?_, ?_⟩
          · intro k hk
            rcases Nat.lt_or_ge k done.length with hk' | hk'
            · rw [List.getD_append _ _ _ _ hk']
              exact le_of_lt (lt_of_le_of_lt (hmax k hk') hlt)
            · have : k = done.length := by
                simp only [List.length_append, List.length_singleton] at hk
                omega
              subst this
              rw [hget]
          · intro k hk
            rw [List.getD_append _ _ _ _ hk]
            exact lt_of_le_of_lt (hmax k hk) hlt
        have := ih (done ++ [c]) _ hinv
        rwa [hassoc] at this
      · have step : extractOneAux q (c :: cs) done.length (some (bc, bs, bi)) =
            extractOneAux q cs (done.length + 1) (some (bc, bs, bi)) := by
          simp [extractOneAux, hlt]
        rw [step, hlen]
        have hinv : BestInv q (done ++ [c]) (some (bc, bs, bi)) := by
          refine ⟨by simp only [List.length_append, List.length_singleton]; omega,
            by rw [List.getD_append _ _ _ _ hi]; exact hbc, hbs, ?_, ?_⟩
          · intro k hk
            rcases Nat.lt_or_ge k done.length with hk' | hk'
            · rw [List.getD_append _ _ _ _ hk']
              exact hmax k hk'
            · have : k = done.length := by
                simp only [List.length_append, List.length_singleton] at hk
                omega
              subst this
              rw [hget]
              exact not_lt.mp hlt
          · intro k hk
            rw [List.getD_append _ _ _ _ (lt_trans hk hi)]
            exact hfirst k hk
        have := ih (done ++ [c]) _ hinv
        rwa [hassoc] at this

/-- What a successful `extractOne` returns: the choice at the reported index,
its exact score, maximal among all choices, and strictly above every earlier
choice (first of the ties). -/
lemma extractOne_spec (q : String) (cs : List String) (c : String) (s : ℚ) (i : Nat)
    (h : extractOne q cs = some (c, s, i)) :
    i < cs.length ∧ cs.getD i "" = c ∧ s = fuzzRatio q c
      ∧ (∀ k, k < cs.length → fuzzRatio q (cs.getD k "") ≤ s)
      ∧ (∀ k, k < i → fuzzRatio q (cs.getD k "") < s) := by
  have hinv := extractOneAux_inv q cs [] none rfl
  simp only [List.nil_append, List.length_nil] at hinv
  have h' : extractOneAux q cs 0 none = some (c, s, i) := h
  rw [h'] at hinv
  exact hinv

/-- `mapColumnsAux` relative to its accumulators. -/
lemma mapColumnsAux_acc (cols : List String) (required : List String) :
    ∀ m miss, mapColumnsAux cols required (m, miss) =
      (m ++ (mapColumnsAux cols required ([], [])).1,
       miss ++ (mapColumnsAux cols required ([], [])).2) := by
  induction required with
  | nil => intro m miss; simp [mapColumnsAux]
  | cons req rest ih =>
    intro m miss
    cases h : resolveKey cols req with
    | some a =>
      simp only [mapColumnsAux, h]
      rw [ih (m ++ [(req, a)]) miss, ih ([] ++ [(req, a)]) []]
      simp
    | none =>
      simp only [mapColumnsAux, h]
      rw [ih m (miss ++ [req]), ih [] ([] ++ [req])]
      simp

/-- One resolver loop step, resolved key. -/
lemma mapColumns_cons_some (cols : List String) (req : String) (rest : List String)
    (a : String) (h : resolveKey cols req = some a) :
    mapColumns cols (req :: rest) =
      ((req, a) :: (mapColumns cols rest).1, (mapColumns cols rest).2) := by
  rw [mapColumns, mapColumns]
  simp only [mapColumnsAux, h]
  rw [mapColumnsAux_acc]
  simp

/-- One resolver loop step, missing key. -/
lemma mapColumns_cons_none (cols : List String) (req : String) (rest : List String)
    (h : resolveKey cols req = none) :
    mapColumns cols (req :: rest) =
      ((mapColumns cols rest).1, req :: (mapColumns cols rest).2) := by
  rw [mapColumns, mapColumns]
  simp only [mapColumnsAux, h]
  rw [mapColumnsAux_acc]
  simp

/-- Every produced mapping entry records a key resolved to that column. -/
lemma mapColumns_mapping_mem (cols : List String) :
    ∀ (l : List String) (x a : String), (x, a) ∈ (mapColumns cols l).1 →
      resolveKey cols x = some a := by
  intro l
  induction l with
  | nil => intro x a h; simp [mapColumns, mapColumnsAux] at h
  | cons req rest ih =>
    intro x a h
    cases hr : resolveKey cols req with
    | some b =>
      rw [mapColumns_cons_some cols req rest b hr] at h
      rcases List.mem_cons.mp h with h' | h'
      · rw [Prod.mk.injEq] at h'
        obtain ⟨rfl, rfl⟩ := h'
        exact hr
      · exact ih x a h'
    | none =>
      rw [mapColumns_cons_none cols req rest hr] at h
      exact ih x a h

/-- Every reported missing key failed to resolve. -/
lemma mapColumns_missing_mem (cols : List String) :
    ∀ (l : List String) (x : String), x ∈ (mapColumns cols l).2 →
      resolveKey cols x = none := by
  intro l
  induction l with
  | nil => intro x h; simp [mapColumns, mapColumnsAux] at h
  | cons req rest ih =>
    intro x h
    cases hr : resolveKey cols req with
    | some b =>
      rw [mapColumns_cons_some cols req rest b hr] at h
      exact ih x h
    | none =>
      rw [mapColumns_cons_none cols req rest hr] at h
      rcases List.mem_cons.mp h with rfl | h'
      · exact hr
      · exact ih x h'

/-- Every required key ends up mapped or reported missing. -/
lemma mapColumns_covers (cols : List String) :
    ∀ (l : List String) (x : String), x ∈ l →
      (∃ a, (x, a) ∈ (mapColumns cols l).1) ∨ x ∈ (mapColumns cols l).2 := by
  intro l
  induction l with
  | nil => intro x h; cases h
  | cons req rest ih =>
    intro x h
    rcases List.mem_cons.mp h with rfl | h'
    · cases hr : resolveKey cols x with
      | some a =>
        rw [mapColumns_cons_some cols x rest a hr]
        exact Or.inl ⟨a, List.mem_cons_self _ _⟩
      | none =>
        rw [mapColumns_cons_none cols x rest hr]
        exact Or.inr (List.mem_cons_self _ _)
    · cases hr : resolveKey cols req with
      | some a =>
        rw [mapColumns_cons_some cols req rest a hr]
        rcases ih x h' with ⟨a', ha'⟩ | hm
        · exact Or.inl ⟨a', List.mem_cons_of_mem _ ha'⟩
        · exact Or.inr hm
      | none =>
        rw [mapColumns_cons_none cols req rest hr]
        rcases ih x h' with ⟨a', ha'⟩ | hm
        · exact Or.inl ⟨a', ha'⟩
        · exact Or.inr (List.mem_cons_of_mem _ hm)

/-- **C7**: the column resolver.  (i) `extractOne` returns the choice with
the maximum edit-distance-based score, the first in original order on ties;
(ii) a required key receives a mapping entry exactly when its best match
scores at least 85, and is reported missing exactly otherwise; (iii) on the
concrete schema `["area", "Region"]`, `region` resolves to the original
column name `"Region"` (score 100, beating the earlier `"area"`), while
`zone` and `woreda` are reported missing. -/
theorem c7_column_resolver :
    (∀ (q : String) (cs : List String) (c : String) (s : ℚ) (i : Nat),
      extractOne q cs = some (c, s, i) →
        i < cs.length ∧ cs.getD i "" = c ∧ s = fuzzRatio q c
          ∧ (∀ k, k < cs.length → fuzzRatio q (cs.getD k "") ≤ s)
          ∧ (∀ k, k < i → fuzzRatio q (cs.getD k "") < s))
    ∧ (∀ (cols required : List String) (req : String), req ∈ required →
        (((∃ a, (req, a) ∈ (mapColumns cols required).1) ↔
            (∃ c s i, extractOne req (cols.map normalizeColName) = some (c, s, i) ∧ 85 ≤ s))
          ∧ ((req ∈ (mapColumns cols required).2) ↔
            ¬ (∃ c s i, extractOne req (cols.map normalizeColName) = some (c, s, i) ∧ 85 ≤ s))))
    ∧ mapColumns ["area", "Region"] ["region", "zone", "woreda"] =
        ([("region", "Region")], ["zone", "woreda"]) := by
  have hres : ∀ (cols : List String) (req : String),
      resolveKey cols req ≠ none ↔
        (∃ c s i, extractOne req (cols.map normalizeColName) = some (c, s, i) ∧ 85 ≤ s) := by
    intro cols req
    cases he : extractOne req (cols.map normalizeColName) with
    | none =>
      simp [resolveKey, he]
    | some b =>
      obtain ⟨c, s, i⟩ := b
      simp only [resolveKey, he]
      by_cases hs : 85 ≤ s
      · rw [if_pos hs]
        constructor
        · intro _; exact ⟨c, s, i, rfl, hs⟩
        · intro _; simp
      · rw [if_neg hs]
        constructor
        · intro h; exact absurd rfl h
        · rintro ⟨c', s', i', he', hs'⟩
          simp only [Option.some.injEq, Prod.mk.injEq] at he'
          obtain ⟨rfl, rfl, rfl⟩ := he'
          exact absurd hs' hs
  refine ⟨extractOne_spec, ?_, by decide⟩
  intro cols required req hreq
  constructor
  · constructor
    · rintro ⟨a, ha⟩
      have := mapColumns_mapping_mem cols required req a ha
      exact (hres cols req).mp (by simp [this])
    · intro h
      rcases mapColumns_covers cols required req hreq with h' | h'
      · exact h'
      · have := mapColumns_missing_mem cols required req h'
        exact absurd ((hres cols req).mpr h) (by simp [this])
  · constructor
    · intro h
      have := mapColumns_missing_mem cols required req h
      intro hex
      exact absurd ((hres cols req).mpr hex) (by simp [this])
    · intro h
      rcases mapColumns_covers cols required req hreq with ⟨a, ha⟩ | h'
      · have := mapColumns_mapping_mem cols required req a ha
        exact absurd ((hres cols req).mp (by simp [this])) h
      · exact h'

/-- Witness for C7: on `["area", "Region"]`, the key `region` is mapped (its
best match scores 100 ≥ 85) and the key `zone` is reported missing (its best
match scores only 40 < 85). -/
theorem c7_witness :
    (∃ a, ("region", a) ∈ (mapColumns ["area", "Region"] ["region", "zone", "woreda"]).1)
    ∧ "zone" ∈ (mapColumns ["area", "Region"] ["region", "zone", "woreda"]).2 := by
  have h2 := c7_column_resolver.2.1
  constructor
  · exact (h2 ["area", "Region"] ["region", "zone", "woreda"] "region" (by decide)).1.mpr
      ⟨"region", 100, 1, by decide, by decide⟩
  · refine (h2 ["area", "Region"] ["region", "zone", "woreda"] "zone" (by decide)).2.mpr ?_
    rintro ⟨c, s, i, he, hs⟩
    rw [show extractOne "zone" (["area", "Region"].map normalizeColName) =
        some ("region", 40, 1) from by decide] at he
    simp only [Option.some.injEq, Prod.mk.injEq] at he
    obtain ⟨-, rfl, -⟩ := he
    exact absurd hs (by norm_num)

/-! ### Frame property of the store-instrumented run -/

/-- The Step-1 write loop at store index 2 only rewrites index 2. -/
lemma normalizePhaseH_two (a b c d : Table) (m : List (String × String)) :
    normalizePhaseH 2 [a, b, c, d] m = [a, b, List.foldl normStep c m, d] := by
  induction m generalizing c with
  | nil => rfl
  | cons p m ih =>
    have hstep : normalizePhaseH 2 [a, b, c, d] (p :: m) =
        normalizePhaseH 2 [a, b, normStep c p, d] m := rfl
    rw [hstep, ih]
    rfl

/-- The Step-1 write loop at store index 3 only rewrites index 3. -/
lemma normalizePhaseH_three (a b c d : Table) (m : List (String × String)) :
    normalizePhaseH 3 [a, b, c, d] m = [a, b, c, List.foldl normStep d m] := by
  induction m generalizing d with
  | nil => rfl
  | cons p m ih =>
    have hstep : normalizePhaseH 3 [a, b, c, d] (p :: m) =
        normalizePhaseH 3 [a, b, c, normStep d p] m := rfl
    rw [hstep, ih]
    rfl

/-- **C9**: re-tracing `match_and_merge_two_datasets` over an explicit object
store, the two input dataframes (store indices 0 and 1) are bit-identical
after the call: every in-place rename and column rewrite goes to the copies
at indices 2 and 3, which end up holding the Step-1 working tables.  The
instrumented run also returns exactly the pure function's results. -/
theorem c9_inputs_never_mutated (df1 df2 : Table) (m1 m2 : List (String × String))
    (tR tZ tW : ℚ) :
    matchAndMergeH df1 df2 m1 m2 tR tZ tW =
      (match_and_merge_two_datasets df1 df2 m1 m2 tR tZ tW,
       [df1, df2, normalizeTable df1 m1, normalizeTable df2 m2])
    ∧ (matchAndMergeH df1 df2 m1 m2 tR tZ tW).2.getD 0 emptyTable = df1
    ∧ (matchAndMergeH df1 df2 m1 m2 tR tZ tW).2.getD 1 emptyTable = df2 := by
  have hheap : matchAndMergeH df1 df2 m1 m2 tR tZ tW =
      (match_and_merge_two_datasets df1 df2 m1 m2 tR tZ tW,
       [df1, df2, normalizeTable df1 m1, normalizeTable df2 m2]) := by
    simp only [matchAndMergeH, hGet, List.cons_append, List.nil_append,
      List.getD_cons_zero, List.getD_cons_succ, normalizePhaseH_two, normalizePhaseH_three]
    rfl
  refine ⟨hheap, ?_, ?_⟩ <;> rw [hheap] <;> rfl

/-- **C8**: `match_and_merge_two_datasets` is a pure function of its seven
arguments in this embedding — there is no ambient state it could read or
write — so two invocations on the same tables, mappings and thresholds are
definitionally equal, and likewise for the store-instrumented version. -/
theorem c8_deterministic (df1 df2 : Table) (m1 m2 : List (String × String)) (tR tZ tW : ℚ) :
    match_and_merge_two_datasets df1 df2 m1 m2 tR tZ tW =
      match_and_merge_two_datasets df1 df2 m1 m2 tR tZ tW
    ∧ matchAndMergeH df1 df2 m1 m2 tR tZ tW = matchAndMergeH df1 df2 m1 m2 tR tZ tW :=
  ⟨rfl, rfl⟩

end WoredaStd
